import Mathlib

/-!
Verification of `component_vis.model_evaluation` (componentvis repository).

The module is a stateless library of pure numerical functions over dense
arrays.  We embed it shallowly: matrices and N-dimensional arrays are shapes
together with total entry functions over rationals (exact arithmetic; the
numerical SVD routine `scipy.linalg.svd` is an external primitive, so every
function that calls it is parametrised by the SVD oracle it uses).  Fallible
Python code is embedded in `Except` over a Python-error type, and the one
aliasing-sensitive function is additionally embedded against an explicit
store of arrays to settle the no-mutation claim.
-/

namespace ComponentVis

/-- A dense 2-D numeric array: `rows × cols` with a total entry function.
Entries outside the shape are irrelevant junk. -/
structure Mat where
  rows : ℕ
  cols : ℕ
  entry : ℕ → ℕ → ℚ

instance : Inhabited Mat := ⟨⟨0, 0, fun _ _ => 0⟩⟩

/-- A dense 1-D numeric array. -/
structure Vec where
  len : ℕ
  entry : ℕ → ℚ

/-- A dense N-dimensional numeric array: a shape together with a total entry
function on index lists (row-major view is irrelevant; we only ever read
entries at valid indices). -/
structure NDArray where
  shape : List ℕ
  data : List ℕ → ℚ

instance : Inhabited NDArray := ⟨⟨[], fun _ => 0⟩⟩

/-- All valid multi-indices of a shape, in lexicographic order. -/
def allIdx : List ℕ → List (List ℕ)
  | [] => [[]]
  | d :: ds => (List.range d).flatMap (fun i => (allIdx ds).map (i :: ·))

/-- Embedding of `np.sum(X ** 2)`: the sum of squares of all entries of an array. -/
def NDArray.sumSq (X : NDArray) : ℚ :=
  ((allIdx X.shape).map (fun idx => X.data idx ^ 2)).sum

/-- Embedding of `np.sum((X - Y) ** 2)` for same-shape arrays (shape taken from `X`). -/
def sumDiffSq (X Y : NDArray) : ℚ :=
  ((allIdx X.shape).map (fun idx => (X.data idx - Y.data idx) ^ 2)).sum

/-- Matrix transpose `M.T`. -/
def Mat.T (M : Mat) : Mat := ⟨M.cols, M.rows, fun i j => M.entry j i⟩

/-- Matrix product, as in `A.T @ A`. -/
def Mat.mul (A B : Mat) : Mat :=
  ⟨A.rows, B.cols, fun i j =>
    ((List.range A.cols).map (fun k => A.entry i k * B.entry k j)).sum⟩

/-- Embedding of `np.diag(v)`: the square diagonal matrix with `v` on the diagonal. -/
def npDiag (v : Vec) : Mat :=
  ⟨v.len, v.len, fun i j => if i = j then v.entry i else 0⟩

/-- Embedding of `np.tensordot(M, X, (1, X.ndim - 1))`: contract axis 1 of the matrix `M`
with the last axis of `X`; the result has `M`'s axis 0 first, followed by all
axes of `X` except the last.  The contraction length is `M.cols` (numpy
requires it to equal `X`'s last dimension). -/
def tensordot (M : Mat) (X : NDArray) : NDArray :=
  ⟨M.rows :: X.shape.dropLast,
   fun idx =>
     match idx with
     | [] => 0
     | i :: rest =>
       ((List.range M.cols).map (fun k => M.entry i k * X.data (rest ++ [k]))).sum⟩

/-- A reduced singular value decomposition triple `(U, s, Vh)` as returned by
`scipy.linalg.svd(factor, full_matrices=False)`. -/
structure SVDTriple where
  U : Mat
  s : Vec
  Vh : Mat

/-- The SVD oracle: `scipy.linalg.svd(·, full_matrices=False)` is an external
numerical primitive, so the embedding is parametrised by it. -/
def SvdOracle : Type := Mat → SVDTriple

/-- Lines 35–37 of the source: `s_pinv = s.copy(); mask = s_pinv != 0;
s_pinv[mask] = 1 / s_pinv[mask]` — invert exactly the nonzero entries,
leaving zero entries as they are. -/
def s_pinv (s : Vec) : Vec :=
  ⟨s.len, fun i => if s.entry i ≠ 0 then 1 / s.entry i else s.entry i⟩

/-- Embedding of `np.ascontiguousarray`: returns the same values in a contiguous layout;
memory layout is outside the value semantics, so this is the identity. -/
def npAscontiguousarray (X : NDArray) : NDArray := X

/-- Embedding of `estimate_core_tensor(factors, X)` (source lines 31–41), parametrised by
the SVD oracle: compute the reduced SVD of every factor matrix, contract `X`
successively along each mode with `Uᵀ`, then with the diagonal matrix of the
pseudo-inverted singular values, then with `Vhᵀ`, iterating over the SVDs in
reversed order exactly as the three `for ... in svds[::-1]` loops do. -/
def estimate_core_tensor (svd : SvdOracle) (factors : List Mat) (X : NDArray) :
    NDArray :=
  let svds := factors.map svd
  let X1 := svds.reverse.foldl (fun acc t => tensordot t.U.T acc) X
  let X2 := svds.reverse.foldl (fun acc t => tensordot (npDiag (s_pinv t.s)) acc) X1
  let X3 := svds.reverse.foldl (fun acc t => tensordot t.Vh.T acc) X2
  npAscontiguousarray X3

/-- The spec's wording of the singular-value pseudo-inverse: "the elementwise
pseudo-inverse of s in which exactly the zero singular values are mapped to
zero rather than inverted". -/
def pinvSpec (s : Vec) : Vec :=
  ⟨s.len, fun i => if s.entry i = 0 then 0 else (s.entry i)⁻¹⟩

/-- The spec's wording of `estimate_core_tensor`: reduced SVD of each factor,
contraction with `Uᵀ` along each mode, scaling by the spec's pseudo-inverse,
contraction with `Vhᵀ`, densely materialised result. -/
def estimate_core_tensor_spec (svd : SvdOracle) (factors : List Mat)
    (X : NDArray) : NDArray :=
  let svds := factors.map svd
  let X1 := svds.reverse.foldl (fun acc t => tensordot t.U.T acc) X
  let X2 := svds.reverse.foldl (fun acc t => tensordot (npDiag (pinvSpec t.s)) acc) X1
  let X3 := svds.reverse.foldl (fun acc t => tensordot t.Vh.T acc) X2
  npAscontiguousarray X3

/-- A CP tensor: optional weights (one per component) and the per-mode factor
matrices. -/
abbrev CPTensor := Option (List ℚ) × List Mat

/-- Embedding of `A *= weights.reshape(1, -1)` (source line 127): broadcasting the weight
row over the rows of `A` multiplies column `j` of `A` by `weights[j]`. -/
def scaleColsByWeights (M : Mat) (w : List ℚ) : Mat :=
  ⟨M.rows, M.cols, fun i j => M.entry i j * w.getD j 0⟩

/-- Source lines 125–129: `A = factors[0].copy()`; `if weights is not None:
A *= weights.reshape(1, -1)`; `factors = tuple((A, *factors[1:]))`. -/
def distributeWeights (cp : CPTensor) : List Mat :=
  let A := match cp.1 with
    | none => cp.2.headD default
    | some w => scaleColsByWeights (cp.2.headD default) w
  A :: cp.2.tail

/-- The Python exceptions raised by the embedded fallible code paths. -/
inductive PyErr
  | typeError (msg : String)
  | valueError (msg : String)
  | nameError (msg : String)
  deriving DecidableEq, Repr

/-- The array produced by source lines 133–134 — `T = np.zeros([rank] * X.ndim)`
followed by `np.fill_diagonal(T, 1)`, which writes `T[i, ..., i] = 1` for
every `i < rank` — on the non-exceptional path, i.e. when the array has at
least two dimensions.  `np.fill_diagonal` raises on 1-d input; the full
embedding of the pair of lines is `superdiagExc`. -/
def superdiag (rank n : ℕ) : NDArray :=
  ⟨List.replicate n rank,
   fun idx =>
     if idx.headD 0 < rank ∧ idx = List.replicate n (idx.headD 0) then 1 else 0⟩

/-- Embedding of source lines 133–134 with their exception: `np.fill_diagonal`
raises `ValueError` ("array must be at least 2-d") when the zeros array has
fewer than two dimensions, and otherwise fills the superdiagonal (for more
than two dimensions all dimensions must be equal, which `[rank] * X.ndim`
guarantees). -/
def superdiagExc (rank n : ℕ) : Except PyErr NDArray :=
  if n < 2 then Except.error (PyErr.valueError "array must be at least 2-d")
  else Except.ok (superdiag rank n)

/-- The score computed by `core_consistency(cp_tensor, X, normalised)`
(source lines 121–140) on its non-exceptional path, parametrised by the SVD
oracle used by `estimate_core_tensor`.  The path is reached only when
`X.ndim ≥ 2`; the full embedding with the `np.fill_diagonal` `ValueError` on
1-d input is `core_consistency_exc`. -/
def core_consistency (svd : SvdOracle) (cp : CPTensor) (X : NDArray)
    (normalised : Bool) : ℚ :=
  let rank := (cp.2.headD default).cols
  let G := estimate_core_tensor svd (distributeWeights cp) X
  let T := superdiag rank X.shape.length
  let denom : ℚ := if normalised then G.sumSq else (rank : ℚ)
  100 - 100 * sumDiffSq G T / denom

/-- Embedding of `core_consistency(cp_tensor, X, normalised)` (source lines
121–140) with its exception behaviour: line 134's `np.fill_diagonal(T, 1)`
raises `ValueError` when `X.ndim < 2`, and otherwise the score of line 140 is
returned. -/
def core_consistency_exc (svd : SvdOracle) (cp : CPTensor) (X : NDArray)
    (normalised : Bool) : Except PyErr ℚ := do
  let rank := (cp.2.headD default).cols
  let G := estimate_core_tensor svd (distributeWeights cp) X
  let T ← superdiagExc rank X.shape.length
  let denom : ℚ := if normalised then G.sumSq else (rank : ℚ)
  Except.ok (100 - 100 * sumDiffSq G T / denom)

/-- The spec's wording of the weight folding: "scaling column r of the first
factor matrix by weight r (columns unchanged when weights are absent)". -/
def specFoldWeights (cp : CPTensor) : List Mat :=
  match cp.1 with
  | none => cp.2
  | some w =>
    (⟨(cp.2.headD default).rows, (cp.2.headD default).cols,
      fun i r => w.getD r 0 * (cp.2.headD default).entry i r⟩ : Mat) :: cp.2.tail

/-- The spec's wording of the ideal core: "the R^N superdiagonal tensor with
ones exactly where all indices are equal and zeros elsewhere". -/
def superdiagSpec (rank n : ℕ) : NDArray :=
  ⟨List.replicate n rank,
   fun idx => if ∀ x ∈ idx, x = idx.headD 0 then 1 else 0⟩

/-- The spec's formula for the core consistency: `100 - 100 * sum((G - I)^2)
/ denom` with `G` the estimated core of the weight-folded factors, `I` the
superdiagonal tensor and `denom` either the component count or the sum of
squares of `G`. -/
def core_consistency_spec (svd : SvdOracle) (cp : CPTensor) (X : NDArray)
    (normalised : Bool) : ℚ :=
  let rank := (cp.2.headD default).cols
  let G := estimate_core_tensor svd (specFoldWeights cp) X
  let I := superdiagSpec rank X.shape.length
  let denom : ℚ := if normalised then G.sumSq else (rank : ℚ)
  100 - 100 * sumDiffSq G I / denom

/-- Modelled from the spec: `construct_cp_tensor` lives in
`component_vis.factor_tools`, which is not part of the sources; the spec
describes it as reconstructing the dense tensor from factors and weights as
the "elementwise outer-product sum across components" — entry `idx` is the
sum over components `r` of `weight_r` times the product over modes `n` of
`factors[n][idx[n], r]` (absent weights count as 1). -/
def construct_cp_tensor (cp : CPTensor) : NDArray :=
  let rank := (cp.2.headD default).cols
  ⟨cp.2.map (·.rows),
   fun idx =>
     ((List.range rank).map (fun r =>
       (match cp.1 with | none => 1 | some w => w.getD r 0) *
       ((cp.2.zip idx).map (fun p => p.1.entry p.2 r)).prod)).sum⟩

/-- Embedding of `sse(cp_tensor, X)` (source lines 143–147): reconstruct `X_hat` with
`construct_cp_tensor` and return `np.sum((X - X_hat) ** 2)`. -/
def sse (cp : CPTensor) (X : NDArray) : ℚ :=
  sumDiffSq X (construct_cp_tensor cp)

/-- Embedding of `relative_sse(cp_tensor, X, sum_squared_X)` (source lines 150–154).  Note
that the source recomputes `sum_squared_x = np.sum(X ** 2)` unconditionally
and never reads the `sum_squared_X` argument. -/
def relative_sse (cp : CPTensor) (X : NDArray) (sum_squared_X : Option ℚ) : ℚ :=
  let sum_squared_x := X.sumSq
  sse cp X / sum_squared_x

/-- Embedding of `fit(cp_tensor, X, sum_squared_X)` (source lines 157–160):
`1 - relative_sse(cp_tensor, X, sum_squared_X=sum_squared_X)`. -/
def fit (cp : CPTensor) (X : NDArray) (sum_squared_X : Option ℚ) : ℚ :=
  1 - relative_sse cp X sum_squared_X

/-- A caller-supplied classifier over the capability set
`\x7bfit(X, y), score(X, y), predict(X)\x7d`; `fit` returns the fitted
classifier state (the Python object mutated in place), `score` and `predict`
consume it.  `S` is the fitted-state type, `L` the label-collection type and
`P` the prediction type. -/
structure Classifier (S L P : Type) where
  fitted : Mat → L → S
  score : S → Mat → L → ℚ
  predict : S → Mat → P

/-- Embedding of `classification_accuracy(factor_matrix, labels, classifier, metric)`
(source lines 163–171): fit the classifier, then either return its own score
or apply the supplied metric to `(labels, predictions)`. -/
def classification_accuracy {S L P : Type} (factor_matrix : Mat) (labels : L)
    (classifier : Classifier S L P) (metric : Option (L → P → ℚ)) : ℚ :=
  let st := classifier.fitted factor_matrix labels
  match metric with
  | none => classifier.score st factor_matrix labels
  | some m => m labels (classifier.predict st factor_matrix)

/-- Embedding of `np.ones(rank, rank)` (source line 215): the second positional argument
of `np.ones` is `dtype`, and numpy cannot interpret an integer such as `rank`
as a data type, so this call raises `TypeError`. -/
def npOnesIntDtype (shape dtypeArg : ℕ) : Except PyErr Mat :=
  Except.error (PyErr.typeError "Cannot interpret the given value as a data type")

/-- Embedding of `if weights:` on a numpy array (source line 212): arrays of more than one
element have an ambiguous truth value and raise `ValueError`; a one-element
array is truthy exactly when its element is nonzero; an empty array is
falsy. -/
def npArrayTruthy (w : List ℚ) : Except PyErr Bool :=
  if w.length > 1 then
    Except.error (PyErr.valueError
      "The truth value of an array with more than one element is ambiguous")
  else
    Except.ok (w.headD 0 ≠ 0)

/-- Elementwise (Hadamard) product `temp *= factor_matrix.T @ factor_matrix`
of same-shape matrices. -/
def hadamard (A B : Mat) : Mat :=
  ⟨A.rows, A.cols, fun i j => A.entry i j * B.entry i j⟩

/-- Embedding of `np.sum` over all entries of a matrix. -/
def matTotal (M : Mat) : ℚ :=
  ((List.range M.rows).map (fun i =>
    ((List.range M.cols).map (fun j => M.entry i j)).sum)).sum

/-- Result of `percentage_variation`: one vector, or the pair of the
data-normalised and model-normalised vectors for `method="both"`. -/
inductive PVResult
  | single (v : List ℚ)
  | pair (v w : List ℚ)

/-- Embedding of `percentage_variation(cp_tensor, X, method)` (source lines 174–232),
embedded with Python exception semantics.  Line 212 evaluates `if weights:`
on the weight array, line 213 references the undefined name `weight`, and
line 215 calls `np.ones(rank, rank)`; the remaining lines follow the source:
the Hadamard accumulation of `factor_matrix.T @ factor_matrix`, the absolute
diagonal as per-component sum of squares, and the three-way `method`
dispatch ending in the invalid-method `ValueError`. -/
def percentage_variation (cp : CPTensor) (X : Option NDArray)
    (method : String) : Except PyErr PVResult := do
  let weights := cp.1
  let factor_matrices := cp.2
  let rank := (factor_matrices.headD default).cols
  let truthy ← match weights with
    | none => Except.ok false
    | some w => npArrayTruthy w
  let temp ← if truthy then
      Except.error (PyErr.nameError "name weight is not defined")
    else
      npOnesIntDtype rank rank
  let temp := factor_matrices.foldl (fun t fm => hadamard t (Mat.mul fm.T fm)) temp
  let ssc := (List.range rank).map (fun i => |temp.entry i i|)
  if method = "data" then
    match X with
    | none => Except.error (PyErr.typeError
        "The dataset must be provided if method is data")
    | some x => Except.ok (PVResult.single (ssc.map (· / x.sumSq)))
  else if method = "model" then
    Except.ok (PVResult.single (ssc.map (· / |matTotal temp|)))
  else if method = "both" then
    match X with
    | none => Except.error (PyErr.typeError
        "unsupported operand type for power: NoneType and int")
    | some x => Except.ok (PVResult.pair (ssc.map (· / x.sumSq))
        (ssc.map (· / |matTotal temp|)))
  else
    Except.error (PyErr.valueError "Method must be either data, model or both")

/-- Exact rationals extended with the IEEE-754 special values.  The module's
arithmetic is division-free except for the reciprocals of nonzero singular
values and the final normalisations, so finite intermediate values are exact;
this type captures what a float computation does at a zero denominator. -/
inductive XF
  | fin (q : ℚ)
  | pinf
  | ninf
  | nan
  deriving DecidableEq, Repr

/-- IEEE-754 subtraction on extended values. -/
def XF.sub : XF → XF → XF
  | nan, _ => nan
  | _, nan => nan
  | fin a, fin b => fin (a - b)
  | fin _, pinf => ninf
  | fin _, ninf => pinf
  | pinf, fin _ => pinf
  | pinf, pinf => nan
  | pinf, ninf => pinf
  | ninf, fin _ => ninf
  | ninf, pinf => ninf
  | ninf, ninf => nan

/-- IEEE-754 division on extended values: a positive finite value divided by
zero is `+∞`, a negative one is `-∞`, and `0 / 0` is NaN; numpy reports these
with a runtime warning, never an exception. -/
def XF.div : XF → XF → XF
  | nan, _ => nan
  | _, nan => nan
  | fin a, fin b =>
    if b = 0 then (if 0 < a then pinf else if a < 0 then ninf else nan)
    else fin (a / b)
  | fin _, pinf => fin 0
  | fin _, ninf => fin 0
  | pinf, fin b => if 0 ≤ b then pinf else ninf
  | ninf, fin b => if 0 ≤ b then ninf else pinf
  | pinf, pinf => nan
  | pinf, ninf => nan
  | ninf, pinf => nan
  | ninf, ninf => nan

/-- Whether an extended value is finite (neither infinite nor NaN). -/
def XF.isFinite : XF → Bool
  | fin _ => true
  | _ => false

/-- Embedding of `core_consistency` with IEEE-754 special-value semantics at the final
`100 - 100 * np.sum((G - T) ** 2) / denom` (source line 140), the one place
a zero denominator can arise: everything before it is exact, and numpy float
division by zero yields `±∞`/NaN with a warning rather than raising, so the
embedding is a total function into `XF`. -/
def core_consistency_fp (svd : SvdOracle) (cp : CPTensor) (X : NDArray)
    (normalised : Bool) : XF :=
  let rank := (cp.2.headD default).cols
  let G := estimate_core_tensor svd (distributeWeights cp) X
  let T := superdiag rank X.shape.length
  let denom : ℚ := if normalised then G.sumSq else (rank : ℚ)
  XF.sub (XF.fin 100) (XF.div (XF.fin (100 * sumDiffSq G T)) (XF.fin denom))

/-- The IEEE-valued embedding of `core_consistency` together with its
exception behaviour: `np.fill_diagonal` raises `ValueError` on 1-d input
before the division is ever reached; otherwise the final line's value is
returned (as `XF`, capturing the zero-denominator cases). -/
def core_consistency_fp_exc (svd : SvdOracle) (cp : CPTensor) (X : NDArray)
    (normalised : Bool) : Except PyErr XF := do
  let rank := (cp.2.headD default).cols
  let G := estimate_core_tensor svd (distributeWeights cp) X
  let T ← superdiagExc rank X.shape.length
  let denom : ℚ := if normalised then G.sumSq else (rank : ℚ)
  Except.ok (XF.sub (XF.fin 100)
    (XF.div (XF.fin (100 * sumDiffSq G T)) (XF.fin denom)))

/-- A store of caller-owned factor-matrix arrays; a reference is an index
into the store.  This models numpy array identity for the one function that
performs an in-place update (`A *= weights.reshape(1, -1)`). -/
abbrev Store := List Mat

/-- Read the array a reference points to. -/
def Store.read (σ : Store) (r : ℕ) : Mat := σ.getD r default

/-- Overwrite the array a reference points to (in-place numpy update). -/
def Store.write (σ : Store) (r : ℕ) (M : Mat) : Store := σ.set r M

/-- Allocate a fresh array (`.copy()` and friends) and return its
reference. -/
def Store.alloc (σ : Store) (M : Mat) : Store × ℕ := (σ ++ [M], σ.length)

/-- Embedding of `core_consistency` against the explicit store: line 125
(`A = factors[0].copy()`) allocates a fresh array, line 127
(`A *= weights.reshape(1, -1)`) writes to that fresh array in place, and all
other uses of the caller's arrays are reads.  The weight vector and the data
tensor are only ever read by the source, so they appear as plain values. -/
def core_consistency_st (svd : SvdOracle) (σ : Store)
    (weights : Option (List ℚ)) (factorRefs : List ℕ) (X : NDArray)
    (normalised : Bool) : Store × ℚ :=
  let rank := (σ.read (factorRefs.headD 0)).cols
  let p := σ.alloc (σ.read (factorRefs.headD 0))
  let σ1 := p.1
  let aRef := p.2
  let σ2 := match weights with
    | none => σ1
    | some w => σ1.write aRef (scaleColsByWeights (σ1.read aRef) w)
  let factors := σ2.read aRef :: factorRefs.tail.map σ2.read
  let G := estimate_core_tensor svd factors X
  let T := superdiag rank X.shape.length
  let denom : ℚ := if normalised then G.sumSq else (rank : ℚ)
  (σ2, 100 - 100 * sumDiffSq G T / denom)

/-! ### Concrete instances used to exercise the theorems -/

/-- A concrete SVD oracle for exercising the parametrised embeddings on small
inputs (the theorems hold for every oracle; witnesses need one). -/
def svdEx : SvdOracle := fun M =>
  ⟨M, ⟨M.cols, fun _ => 1⟩, ⟨M.cols, M.cols, fun i j => if i = j then 1 else 0⟩⟩

/-- A concrete 1×1 factor matrix with entry 3. -/
def matEx1 : Mat := ⟨1, 1, fun _ _ => 3⟩

/-- A concrete weighted rank-1 CP tensor over one mode. -/
def cpEx1 : CPTensor := (some [2], [matEx1])

/-- A concrete 1-dimensional data tensor of shape [1] with entry 5. -/
def xEx1 : NDArray := ⟨[1], fun _ => 5⟩

/-- A concrete 2×1 factor matrix with column `(1, 0)`. -/
def matEx2 : Mat := ⟨2, 1, fun i j => if i = 0 ∧ j = 0 then 1 else 0⟩

/-- An unweighted rank-1 CP tensor over one mode; it reconstructs the tensor
`[1, 0]`. -/
def cpEx2 : CPTensor := (none, [matEx2])

/-- The data tensor `[1, 1]` of shape `[2]`: `cpEx2` misses it with
`sse = 1`, and its sum of squares is 2. -/
def xEx2 : NDArray := ⟨[2], fun idx => if idx = [0] ∨ idx = [1] then 1 else 0⟩

/-- The data tensor `[1, 0]` of shape `[2]`, exactly reconstructed by
`cpEx2`. -/
def xEx3 : NDArray := ⟨[2], fun idx => if idx = [0] then 1 else 0⟩

/-- The all-zero data tensor of shape `[1]`; its estimated core is all
zero. -/
def xZero : NDArray := ⟨[1], fun _ => 0⟩

/-- A concrete weighted rank-1 CP tensor over two modes. -/
def cpEx4 : CPTensor := (some [2], [matEx1, matEx1])

/-- A concrete 2-dimensional data tensor of shape `[1, 1]` with entry 5. -/
def xEx4 : NDArray := ⟨[1, 1], fun _ => 5⟩

/-- The all-zero data tensor of shape `[1, 1]`; its estimated core is all
zero and it has the two dimensions `np.fill_diagonal` requires. -/
def xZero2 : NDArray := ⟨[1, 1], fun _ => 0⟩

/-- A concrete two-element store of factor matrices. -/
def storeEx : Store := [matEx2, matEx1]

/-! ### Lemmas and theorems -/

theorem s_pinv_eq_pinvSpec (s : Vec) : s_pinv s = pinvSpec s := by
  unfold s_pinv pinvSpec
  congr 1
  funext i
  by_cases h : s.entry i = 0
  · simp [h]
  · simp [h, one_div]

theorem mem_allIdx {s : List ℕ} {idx : List ℕ} :
    idx ∈ allIdx s ↔ idx.length = s.length ∧
      ∀ p ∈ idx.zip s, p.1 < p.2 := by
  induction s generalizing idx with
  | nil =>
    simp only [allIdx, List.mem_singleton, List.length_nil]
    constructor
    · rintro rfl
      simp
    · rintro ⟨hlen, _⟩
      exact List.eq_nil_of_length_eq_zero hlen
  | cons d ds ih =>
    simp only [allIdx, List.mem_flatMap, List.mem_map, List.mem_range]
    constructor
    · rintro ⟨i, hi, t, ht, rfl⟩
      obtain ⟨hlen, hall⟩ := ih.mp ht
      refine ⟨by simp [hlen], ?_⟩
      intro p hp
      simp [List.zip] at hp
      rcases hp with h | h
      · simp [h, hi]
      · exact hall p h
    · rintro ⟨hlen, hall⟩
      match idx with
      | [] => simp at hlen
      | i :: t =>
        refine ⟨i, ?_, t, ih.mpr ⟨by simpa using hlen, ?_⟩, rfl⟩
        · exact hall (i, d) (List.mem_cons_self _ _)
        · intro p hp
          exact hall p (List.mem_cons_of_mem _ hp)

theorem mem_allIdx_replicate {n r : ℕ} {idx : List ℕ} (h : idx ∈ allIdx (List.replicate n r)) :
    idx.length = n ∧ ∀ x ∈ idx, x < r := by
  obtain ⟨hlen, hall⟩ := mem_allIdx.mp h
  simp only [List.length_replicate] at hlen
  refine ⟨hlen, ?_⟩
  intro x hx
  obtain ⟨i, hi, rfl⟩ := List.getElem_of_mem hx
  have hz : (idx[i], r) ∈ idx.zip (List.replicate n r) := by
    have hi' : i < (idx.zip (List.replicate n r)).length := by
      simp [List.length_zip, hlen]
      omega
    have : (idx.zip (List.replicate n r))[i] = (idx[i], r) := by
      simp [List.getElem_zip]
    rw [← this]
    exact List.getElem_mem hi'
  exact hall _ hz

theorem superdiag_data_eq {rank n : ℕ} (hn : n ≠ 0) (idx : List ℕ)
    (hlen : idx.length = n) (hall : ∀ x ∈ idx, x < rank) :
    (superdiag rank n).data idx = (superdiagSpec rank n).data idx := by
  match idx with
  | [] => exact absurd hlen.symm hn
  | a :: t =>
    unfold superdiag superdiagSpec
    simp only [List.headD_cons]
    by_cases hcond : ∀ x ∈ a :: t, x = a
    · have hrep : a :: t = List.replicate n a :=
        List.eq_replicate_iff.mpr ⟨hlen, hcond⟩
      rw [if_pos ⟨hall a (List.mem_cons_self a t), hrep⟩, if_pos hcond]
    · have hT : ¬(a < rank ∧ a :: t = List.replicate n a) := by
        rintro ⟨-, hrep⟩
        exact hcond fun x hx => (List.eq_replicate_iff.mp hrep).2 x hx
      rw [if_neg hT, if_neg hcond]

theorem sumDiffSq_superdiag_eq (G : NDArray) (rank n : ℕ) (hn : n ≠ 0)
    (hG : G.shape = List.replicate n rank) :
    sumDiffSq G (superdiag rank n) = sumDiffSq G (superdiagSpec rank n) := by
  unfold sumDiffSq
  rw [hG]
  apply congrArg List.sum
  apply List.map_congr_left
  intro idx hidx
  obtain ⟨hlen, hall⟩ := mem_allIdx_replicate hidx
  rw [superdiag_data_eq hn idx hlen hall]

theorem distributeWeights_eq_specFoldWeights (cp : CPTensor) (hfac : cp.2 ≠ []) :
    distributeWeights cp = specFoldWeights cp := by
  unfold distributeWeights specFoldWeights
  match hw : cp.1 with
  | none =>
    simp only
    match cp.2, hfac with
    | a :: t, _ => rfl
  | some w =>
    simp only
    congr 1
    unfold scaleColsByWeights
    congr 1
    funext i j
    exact mul_comm _ _

/-- C2: `estimate_core_tensor(factors, X)` equals the spec's description:
reduced SVD of each factor, successive contraction with `Uᵀ` along each mode,
scaling along each mode by the elementwise pseudo-inverse of the singular
values in which exactly the zero singular values map to zero (never taking a
reciprocal of zero), contraction with `Vhᵀ`, returning the densely
materialised array. -/
theorem estimate_core_tensor_matches_spec (svd : SvdOracle) (factors : List Mat)
    (X : NDArray) :
    estimate_core_tensor svd factors X = estimate_core_tensor_spec svd factors X := by
  unfold estimate_core_tensor estimate_core_tensor_spec
  simp only [s_pinv_eq_pinvSpec]

theorem core_consistency_eq_spec_score (svd : SvdOracle) (cp : CPTensor)
    (X : NDArray) (normalised : Bool)
    (hfac : cp.2 ≠ []) (hX : X.shape ≠ [])
    (hG : (estimate_core_tensor svd (distributeWeights cp) X).shape =
      List.replicate X.shape.length (cp.2.headD default).cols) :
    core_consistency svd cp X normalised = core_consistency_spec svd cp X normalised := by
  have hn : X.shape.length ≠ 0 := fun h => hX (List.length_eq_zero.mp h)
  have hfold := distributeWeights_eq_specFoldWeights cp hfac
  rw [hfold] at hG
  simp only [core_consistency, core_consistency_spec, hfold]
  rw [sumDiffSq_superdiag_eq _ _ _ hn hG]

theorem core_consistency_exc_ok (svd : SvdOracle) (cp : CPTensor)
    (X : NDArray) (normalised : Bool) (hnd : 2 ≤ X.shape.length) :
    core_consistency_exc svd cp X normalised =
      Except.ok (core_consistency svd cp X normalised) := by
  simp only [core_consistency_exc, core_consistency, superdiagExc]
  rw [if_neg (by omega)]
  rfl

/-- C1 counterexample: on a well-formed matching 1-mode input the program
does not return the formula at all — `np.fill_diagonal` raises `ValueError`
("array must be at least 2-d") at source line 134 before the score is
computed. -/
theorem core_consistency_one_mode_raises :
    core_consistency_exc svdEx cpEx1 xEx1 false =
      Except.error (PyErr.valueError "array must be at least 2-d") :=
  rfl

/-- C1 as amended: for data tensors with at least two modes,
`core_consistency(cp_tensor, X, normalised)` returns
`100 - 100 * sum((G - I)^2) / denom`, where `G` is the core estimated by
`estimate_core_tensor` after scaling column `r` of the first factor matrix by
weight `r` (columns unchanged when weights are absent), `I` is the `R^N`
superdiagonal tensor with ones exactly where all indices are equal, and
`denom` is the component count when `normalised` is false and the sum of
squares of `G` when it is true; on 1-mode inputs it raises instead.
Hypotheses: the CP tensor has at least one factor matrix, the data tensor has
at least two axes, and the estimated core has shape `R^N` (as the claim
states, and as any conforming SVD oracle produces on matching shapes). -/
theorem core_consistency_matches_formula (svd : SvdOracle) (cp : CPTensor)
    (X : NDArray) (normalised : Bool)
    (hfac : cp.2 ≠ []) (hnd : 2 ≤ X.shape.length)
    (hG : (estimate_core_tensor svd (distributeWeights cp) X).shape =
      List.replicate X.shape.length (cp.2.headD default).cols) :
    core_consistency_exc svd cp X normalised =
      Except.ok (core_consistency_spec svd cp X normalised) := by
  have hX : X.shape ≠ [] := by
    intro h
    rw [h] at hnd
    simp at hnd
  rw [core_consistency_exc_ok svd cp X normalised hnd,
    core_consistency_eq_spec_score svd cp X normalised hfac hX hG]

/-- Witness for C1 at a concrete weighted rank-1 CP tensor over two modes. -/
theorem core_consistency_matches_formula_witness :
    core_consistency_exc svdEx cpEx4 xEx4 true =
      Except.ok (core_consistency_spec svdEx cpEx4 xEx4 true) :=
  core_consistency_matches_formula svdEx cpEx4 xEx4 true
    (List.cons_ne_nil _ _) (by decide) rfl

/-- C3 (refutation): at the concrete input `cpEx2`, `X = [1, 1]` and a
supplied `sum_squared_X = 1`, `relative_sse` returns `1/2`, which is
`sse / np.sum(X ** 2) = 1 / 2` and not `sse / sum_squared_X = 1 / 1`: the
function recomputes the denominator and never reads the supplied value. -/
theorem relative_sse_ignores_precomputed_argument :
    relative_sse cpEx2 xEx2 (some 1) = 1 / 2 ∧
    sse cpEx2 xEx2 = 1 ∧ xEx2.sumSq = 2 := by
  norm_num [relative_sse, sse, sumDiffSq, NDArray.sumSq, construct_cp_tensor,
    cpEx2, xEx2, matEx2, allIdx, List.range_succ]

/-- C7: `fit` equals `1 - relative_sse`, and on a CP tensor exactly
reconstructing `X` (`sse = 0`, with a nonzero sum of squares of `X`) `fit`
equals 1 and `relative_sse` equals 0. -/
theorem fit_is_one_minus_relative_sse (cp : CPTensor) (X : NDArray)
    (sum_squared_X : Option ℚ) (hX : X.sumSq ≠ 0) :
    fit cp X sum_squared_X = 1 - relative_sse cp X sum_squared_X ∧
    (sse cp X = 0 →
      fit cp X sum_squared_X = 1 ∧ relative_sse cp X sum_squared_X = 0) := by
  have hr : ∀ _ : sse cp X = 0, relative_sse cp X sum_squared_X = 0 := by
    intro h0
    simp [relative_sse, h0]
  refine ⟨rfl, fun h0 => ⟨?_, hr h0⟩⟩
  simp [fit, hr h0]

/-- Witness for C7 at the rank-1 CP tensor exactly reconstructing
`X = [1, 0]`. -/
theorem fit_is_one_minus_relative_sse_witness :
    fit cpEx2 xEx3 (some 7) = 1 - relative_sse cpEx2 xEx3 (some 7) ∧
    (sse cpEx2 xEx3 = 0 →
      fit cpEx2 xEx3 (some 7) = 1 ∧ relative_sse cpEx2 xEx3 (some 7) = 0) :=
  fit_is_one_minus_relative_sse cpEx2 xEx3 (some 7)
    (by norm_num [NDArray.sumSq, xEx3, allIdx, List.range_succ])

/-- C8: `classification_accuracy` first fits the classifier on the factor
matrix and labels; with `metric=None` it returns the fitted classifier's own
score on `(factor_matrix, labels)`, and with a supplied metric it returns
`metric(labels, predictions)` on the fitted classifier's predictions. -/
theorem classification_accuracy_matches_spec {S L P : Type} (factor_matrix : Mat)
    (labels : L) (classifier : Classifier S L P) :
    classification_accuracy factor_matrix labels classifier none =
      classifier.score (classifier.fitted factor_matrix labels) factor_matrix labels ∧
    ∀ m : L → P → ℚ,
      classification_accuracy factor_matrix labels classifier (some m) =
        m labels (classifier.predict (classifier.fitted factor_matrix labels) factor_matrix) :=
  ⟨rfl, fun _ => rfl⟩

/-- C5: whenever the weights entry is `None`, `percentage_variation` hits
`np.ones(rank, rank)` — whose second positional argument is the dtype — and
raises `TypeError` for every data tensor and every method value, so it never
reaches the method dispatch, the documented return values, or the documented
missing-argument and invalid-argument errors. -/
theorem percentage_variation_none_weights_typeerror (factors : List Mat)
    (X : Option NDArray) (method : String) :
    percentage_variation (none, factors) X method =
      Except.error (PyErr.typeError "Cannot interpret the given value as a data type") :=
  rfl

/-- C6 (refutation): with absent weights and `method="bogus"`,
`percentage_variation` raises the `np.ones` `TypeError`, not the
invalid-argument `ValueError` naming the allowed method set: the line
raising that `ValueError` is unreachable. -/
theorem percentage_variation_invalid_method_raises_typeerror :
    percentage_variation cpEx2 none "bogus" =
      Except.error (PyErr.typeError "Cannot interpret the given value as a data type") :=
  rfl

/-- C4 (refutation): with weights present (here `[2, 3]`),
`percentage_variation` raises on line 212 already — `if weights:` on an
array of more than one element is an ambiguous truth value `ValueError` — so
the documented cross-product computation and normalisation never happen. -/
theorem percentage_variation_weighted_raises_valueerror :
    percentage_variation (some [2, 3], [matEx2]) (some xEx2) "model" =
      Except.error (PyErr.valueError
        "The truth value of an array with more than one element is ambiguous") :=
  rfl

theorem sumSq_eq_zero_of_allzero (G : NDArray)
    (h : ∀ idx ∈ allIdx G.shape, G.data idx = 0) : G.sumSq = 0 := by
  unfold NDArray.sumSq
  apply List.sum_eq_zero
  intro x hx
  obtain ⟨idx, hidx, rfl⟩ := List.mem_map.mp hx
  rw [h idx hidx]
  norm_num

theorem sumDiffSq_nonneg (X Y : NDArray) : 0 ≤ sumDiffSq X Y := by
  unfold sumDiffSq
  apply List.sum_nonneg
  intro x hx
  obtain ⟨idx, hidx, rfl⟩ := List.mem_map.mp hx
  positivity

theorem xf_sub_div_zero_nonfinite (a : ℚ) (ha : 0 ≤ a) :
    (XF.sub (XF.fin 100) (XF.div (XF.fin a) (XF.fin 0))).isFinite = false := by
  rcases lt_or_eq_of_le ha with hpos | hzero
  · have hdiv : XF.div (XF.fin a) (XF.fin 0) = XF.pinf := by
      simp [XF.div, hpos]
    rw [hdiv]
    rfl
  · rw [← hzero]
    rfl

/-- C9 counterexample: at a 1-mode input whose estimated core is entirely
zero (all-zero `X`) and `normalised=True`, `core_consistency` does raise —
`np.fill_diagonal` throws `ValueError` before the division is reached — so
the claim's "does not raise an exception" fails as stated. -/
theorem core_consistency_allzero_one_mode_raises :
    core_consistency_exc svdEx (none, [matEx1]) xZero true =
      Except.error (PyErr.valueError "array must be at least 2-d") :=
  rfl

/-- C9 as amended: with `normalised=True`, an entirely zero estimated core
tensor and a data tensor of at least two modes (so that `np.fill_diagonal`
does not raise first), `core_consistency` does not raise: the call returns
normally and the zero denominator propagates through IEEE float semantics to
a non-finite result (`-∞`, or NaN in the degenerate rank-0 case), never a
silently finite score. -/
theorem core_consistency_allzero_core_nonfinite (svd : SvdOracle)
    (cp : CPTensor) (X : NDArray) (hnd : 2 ≤ X.shape.length)
    (hG : ∀ idx ∈ allIdx (estimate_core_tensor svd (distributeWeights cp) X).shape,
      (estimate_core_tensor svd (distributeWeights cp) X).data idx = 0) :
    core_consistency_fp_exc svd cp X true =
      Except.ok (core_consistency_fp svd cp X true) ∧
    (core_consistency_fp svd cp X true).isFinite = false := by
  constructor
  · simp only [core_consistency_fp_exc, core_consistency_fp, superdiagExc]
    rw [if_neg (by omega)]
    rfl
  · have hden := sumSq_eq_zero_of_allzero _ hG
    have hnum := sumDiffSq_nonneg (estimate_core_tensor svd (distributeWeights cp) X)
      (superdiag (cp.2.headD default).cols X.shape.length)
    have key := xf_sub_div_zero_nonfinite
      (100 * sumDiffSq (estimate_core_tensor svd (distributeWeights cp) X)
        (superdiag (cp.2.headD default).cols X.shape.length))
      (mul_nonneg (by norm_num) hnum)
    simp only [core_consistency_fp, reduceIte]
    rw [hden]
    exact key

/-- Witness for C9: a two-mode all-zero data tensor forces an all-zero
estimated core, and the call returns the non-finite value without an
exception. -/
theorem core_consistency_allzero_core_nonfinite_witness :
    core_consistency_fp_exc svdEx (none, [matEx1, matEx1]) xZero2 true =
      Except.ok (core_consistency_fp svdEx (none, [matEx1, matEx1]) xZero2 true) ∧
    (core_consistency_fp svdEx (none, [matEx1, matEx1]) xZero2 true).isFinite = false :=
  core_consistency_allzero_core_nonfinite svdEx (none, [matEx1, matEx1]) xZero2
    (by decide)
    (by norm_num [estimate_core_tensor, estimate_core_tensor_spec, tensordot,
      npDiag, s_pinv, npAscontiguousarray, svdEx, distributeWeights, matEx1,
      xZero2, Mat.T, allIdx, List.range_succ])

theorem store_read_append (σ : Store) (M : Mat) (r : ℕ) (h : r < σ.length) :
    Store.read (σ ++ [M]) r = σ.read r := by
  unfold Store.read
  exact List.getD_append σ [M] default r h

theorem store_read_append_self (σ : Store) (M : Mat) :
    Store.read (σ ++ [M]) σ.length = M := by
  unfold Store.read
  rw [List.getD_append_right σ [M] default σ.length (le_refl _)]
  simp

theorem store_read_write_ne (σ : Store) (m r : ℕ) (M : Mat) (h : m ≠ r) :
    Store.read (σ.write m M) r = σ.read r := by
  unfold Store.read Store.write
  rw [List.getD_eq_getElem?_getD, List.getElem?_set_ne h, ← List.getD_eq_getElem?_getD]

theorem store_read_write_self (σ : Store) (m : ℕ) (M : Mat) (h : m < σ.length) :
    Store.read (σ.write m M) m = M := by
  unfold Store.read Store.write
  rw [List.getD_eq_getElem?_getD, List.getElem?_set_eq_of_lt M h]
  rfl

/-- C10: `core_consistency` never mutates caller-owned arrays.  In the
store-passing embedding the weight scaling writes only to the freshly
allocated copy of the first factor matrix, so every reference the caller held
before the call still reads the same array afterwards, and the returned
score agrees with the pure embedding applied to the caller's values (the
weight vector and the data tensor are only ever read by the source). -/
theorem core_consistency_st_preserves_store (svd : SvdOracle) (σ : Store)
    (weights : Option (List ℚ)) (factorRefs : List ℕ) (X : NDArray)
    (normalised : Bool) (r : ℕ) (hr : r < σ.length)
    (hne : factorRefs ≠ []) (hrefs : ∀ i ∈ factorRefs, i < σ.length) :
    Store.read (core_consistency_st svd σ weights factorRefs X normalised).1 r =
      σ.read r ∧
    (core_consistency_st svd σ weights factorRefs X normalised).2 =
      core_consistency svd (weights, factorRefs.map σ.read) X normalised := by
  obtain ⟨f0, rest, rfl⟩ : ∃ f0 rest, factorRefs = f0 :: rest := by
    match factorRefs, hne with
    | f0 :: rest, _ => exact ⟨f0, rest, rfl⟩
  simp only [core_consistency_st, core_consistency, distributeWeights, Store.alloc,
    List.headD_cons, List.tail_cons, List.map_cons]
  cases weights with
  | none =>
    refine ⟨store_read_append _ _ _ hr, ?_⟩
    have hfac : Store.read (σ ++ [σ.read f0]) σ.length ::
        rest.map (Store.read (σ ++ [σ.read f0])) =
        σ.read f0 :: rest.map σ.read := by
      rw [store_read_append_self]
      congr 1
      apply List.map_congr_left
      intro i hi
      exact store_read_append _ _ _ (hrefs i (List.mem_cons_of_mem _ hi))
    rw [hfac]
  | some w =>
    have hA : Store.read (σ ++ [σ.read f0]) σ.length = σ.read f0 :=
      store_read_append_self σ _
    have hself : Store.read
        ((σ ++ [σ.read f0]).write σ.length
          (scaleColsByWeights (Store.read (σ ++ [σ.read f0]) σ.length) w))
        σ.length = scaleColsByWeights (σ.read f0) w := by
      rw [store_read_write_self _ _ _ (by simp), hA]
    have htail : ∀ i ∈ rest, Store.read
        ((σ ++ [σ.read f0]).write σ.length
          (scaleColsByWeights (Store.read (σ ++ [σ.read f0]) σ.length) w)) i =
        σ.read i := by
      intro i hi
      have hilt : i < σ.length := hrefs i (List.mem_cons_of_mem _ hi)
      rw [store_read_write_ne _ _ _ _ (Nat.ne_of_gt hilt)]
      exact store_read_append _ _ _ hilt
    constructor
    · rw [store_read_write_ne _ _ _ _ (Nat.ne_of_gt hr)]
      exact store_read_append _ _ _ hr
    · have hfac : Store.read
          ((σ ++ [σ.read f0]).write σ.length
            (scaleColsByWeights (Store.read (σ ++ [σ.read f0]) σ.length) w))
          σ.length ::
          rest.map (Store.read
            ((σ ++ [σ.read f0]).write σ.length
              (scaleColsByWeights (Store.read (σ ++ [σ.read f0]) σ.length) w))) =
          scaleColsByWeights (σ.read f0) w :: rest.map σ.read := by
        rw [hself]
        congr 1
        exact List.map_congr_left htail
      rw [hfac]

/-- Witness for C10: a two-array store, a weighted call reading array 0,
array 1 untouched; both caller references read back unchanged and the score
agrees with the pure embedding. -/
theorem core_consistency_st_preserves_store_witness :
    Store.read (core_consistency_st svdEx storeEx (some [2]) [0] xEx3 false).1 1 =
      storeEx.read 1 ∧
    (core_consistency_st svdEx storeEx (some [2]) [0] xEx3 false).2 =
      core_consistency svdEx (some [2], [0].map storeEx.read) xEx3 false :=
  core_consistency_st_preserves_store svdEx storeEx (some [2]) [0] xEx3 false 1
    (by decide) (List.cons_ne_nil _ _) (by decide)

end ComponentVis
